import Mathlib

/-!
# Verification of the muninn storage / pipeline layer

Shallow embedding of the voice-journal storage layer (`src/services/storage.ts`,
`src/services/db.ts`) and the API handlers that drive it (`src/server/api.ts`).

The SQLite database is modelled as an explicit record of table contents
(lists of rows).  SQL statements are translated row-by-row:

* `INSERT OR IGNORE` inserts unless the primary key is already present;
* `INSERT OR REPLACE` removes any row with the same primary key and inserts;
* `UPDATE ... WHERE id = ?` maps the update over every row matching the key;
* `FOREIGN KEY` violations are modelled as thrown exceptions (`Except.error`),
  since `PRAGMA foreign_keys = ON` is set and `ON CONFLICT` resolution does
  not apply to foreign-key constraints;
* `withTransaction` is state passing: a thrown exception restores the
  pre-transaction database state (ROLLBACK) and propagates.

Timestamps (`datetime('now')`) are modelled as a `Nat` tick supplied by the
caller.  The filesystem (audio files and the markdown mirror) is a separate
`Fs` record with an error oracle for failing `unlinkSync` calls; markdown
mirror writes touch no database row and are omitted from the database-only
operations, they are irrelevant to every database-level statement proved here.
-/

namespace Muninn

/-- A SQLite value as bound into a prepared statement (`TEXT`, numeric, `NULL`).
`REAL` durations are carried as `Int` ticks; no claim performs arithmetic on
them. -/
inductive SqlVal
  | vstr (s : String)
  | vnum (n : Int)
  | vnull
deriving DecidableEq, Repr

/-- A JSON value of a request body field, as delivered to `zod` validation. -/
inductive JVal
  | jstr (s : String)
  | jnum (n : Int)
  | jbool (b : Bool)
  | jnull
deriving DecidableEq, Repr

/-- Row of the `entries` table (`db.ts` schema).  `status` is a `TEXT` column
holding one of `pending_transcription`, `transcribed`, `analyzed`. -/
structure Entry where
  id : String
  created_at : Nat
  updated_at : Nat
  title : Option String
  transcript : Option String
  audio_path : Option String
  audio_duration_seconds : Option Int
  status : String
  analysis_json : Option String
  follow_up_questions : Option String
  agent_trajectory : Option String
deriving DecidableEq, Repr

/-- Row of the `tags` table: `id INTEGER PRIMARY KEY AUTOINCREMENT`,
`name TEXT UNIQUE NOT NULL`. -/
structure Tag where
  id : Nat
  name : String
deriving DecidableEq, Repr

/-- Row of the `entry_links` table: `PRIMARY KEY (source_id, target_id)`. -/
structure EntryLink where
  source_id : String
  target_id : String
  relationship : Option String
deriving DecidableEq, Repr

/-- Row of the `cache` table: `key TEXT PRIMARY KEY`, `value TEXT NOT NULL`,
`depends_on TEXT` (nullable). -/
structure CacheRow where
  key : String
  value : String
  depends_on : Option String
deriving DecidableEq, Repr

/-- The database state: contents of the tables the claims touch, plus the
`AUTOINCREMENT` counter for `tags.id`.  `entry_tags` rows are
`(entry_id, tag_id)` pairs. -/
structure Db where
  entries : List Entry
  tags : List Tag
  entry_tags : List (String × Nat)
  entry_links : List EntryLink
  cache : List CacheRow
  nextTagId : Nat
deriving DecidableEq, Repr

/-- Filesystem state: the set of existing paths, plus an oracle naming the
paths whose `unlinkSync` throws an I/O error. -/
structure Fs where
  files : List String
  failing : List String
deriving DecidableEq, Repr

/-- `existsSync`. -/
def Fs.existsSync (fs : Fs) (p : String) : Bool := fs.files.contains p

/-- `unlinkSync`: throws for paths in the failure oracle, otherwise removes
the path. -/
def Fs.unlinkSync (fs : Fs) (p : String) : Except String Fs :=
  if fs.failing.contains p then .error "EIO: unlink failed"
  else .ok { fs with files := fs.files.filter (fun q => q ≠ p) }

/-- `getEntry(id)`: `SELECT * FROM entries WHERE id = ?`. -/
def getEntry (db : Db) (id : String) : Option Entry :=
  db.entries.find? (fun e => e.id = id)

/-- One dynamic `SET key = ?` assignment of `updateEntry`, applied to a row.
Unknown column names leave the row unchanged (the API layer proves they never
reach this point). -/
def applyField (e : Entry) (kv : String × SqlVal) : Entry :=
  match kv.1, kv.2 with
  | "title", .vstr s => { e with title := some s }
  | "title", _ => { e with title := none }
  | "transcript", .vstr s => { e with transcript := some s }
  | "transcript", _ => { e with transcript := none }
  | "audio_path", .vstr s => { e with audio_path := some s }
  | "audio_path", _ => { e with audio_path := none }
  | "audio_duration_seconds", .vnum n => { e with audio_duration_seconds := some n }
  | "audio_duration_seconds", _ => { e with audio_duration_seconds := none }
  | "status", .vstr s => { e with status := s }
  | "status", _ => e
  | "analysis_json", .vstr s => { e with analysis_json := some s }
  | "analysis_json", _ => { e with analysis_json := none }
  | "follow_up_questions", .vstr s => { e with follow_up_questions := some s }
  | "follow_up_questions", _ => { e with follow_up_questions := none }
  | "agent_trajectory", .vstr s => { e with agent_trajectory := some s }
  | "agent_trajectory", _ => { e with agent_trajectory := none }
  | _, _ => e

/-- `updateEntry(id, updates)` (`storage.ts`): returns `null` when the id is
absent; otherwise executes
`UPDATE entries SET updated_at = datetime('now'), <dynamic fields> WHERE id = ? RETURNING *`.
The `updates` list carries the `Object.entries` of the partial-fields object,
in order.  The markdown resync side effect writes no database row and is
modelled separately on `Fs`. -/
def updateEntry (db : Db) (id : String) (updates : List (String × SqlVal))
    (now : Nat) : Db × Option Entry :=
  match getEntry db id with
  | none => (db, none)
  | some e0 =>
    let upd := fun (e : Entry) => updates.foldl applyField { e with updated_at := now }
    ({ db with entries := db.entries.map (fun x => if x.id = id then upd x else x) },
      some (upd e0))

/-- SQLite's ASCII-only case folding used by `LIKE`. -/
def foldChar : Char → Char
  | 'A' => 'a' | 'B' => 'b' | 'C' => 'c' | 'D' => 'd' | 'E' => 'e' | 'F' => 'f'
  | 'G' => 'g' | 'H' => 'h' | 'I' => 'i' | 'J' => 'j' | 'K' => 'k' | 'L' => 'l'
  | 'M' => 'm' | 'N' => 'n' | 'O' => 'o' | 'P' => 'p' | 'Q' => 'q' | 'R' => 'r'
  | 'S' => 's' | 'T' => 't' | 'U' => 'u' | 'V' => 'v' | 'W' => 'w' | 'X' => 'x'
  | 'Y' => 'y' | 'Z' => 'z'
  | c => c

/-- JavaScript `\s` for the characters that can appear here (ASCII
whitespace). -/
def isWsChar (c : Char) : Bool :=
  c = ' ' ∨ c = '\t' ∨ c = '\n' ∨ c = '\r' ∨ c = Char.ofNat 11 ∨ c = Char.ofNat 12

/-- Tag-name normalization of `getOrCreateTag`: `name.toLowerCase().trim()`
(ASCII case folding and ASCII whitespace, which covers every string any
statement below touches). -/
def normTagName (name : String) : String :=
  ⟨(((name.data.map foldChar).dropWhile (fun c => isWsChar c)).reverse.dropWhile
      (fun c => isWsChar c)).reverse⟩

/-- `getOrCreateTag(name)`: looks the normalized name up in `tags`, inserting
a fresh row when absent.  Returns the canonical row. -/
def getOrCreateTag (db : Db) (name : String) : Db × Tag :=
  match db.tags.find? (fun t => t.name = normTagName name) with
  | some t => (db, t)
  | none =>
    ({ db with
        tags := db.tags ++ [{ id := db.nextTagId, name := normTagName name }],
        nextTagId := db.nextTagId + 1 },
      { id := db.nextTagId, name := normTagName name })

/-- `addTagToEntry(entryId, tagName)`:
`INSERT OR IGNORE INTO entry_tags (entry_id, tag_id) VALUES (?, ?)`.
`OR IGNORE` does not cover `FOREIGN KEY` violations, so a missing entry id
throws. -/
def addTagToEntry (db : Db) (entryId tagName : String) : Except String Db :=
  let p := getOrCreateTag db tagName
  if (getEntry p.1 entryId).isSome then
    if p.1.entry_tags.contains (entryId, p.2.id) then .ok p.1
    else .ok { p.1 with entry_tags := p.1.entry_tags ++ [(entryId, p.2.id)] }
  else .error "FOREIGN KEY constraint failed"

/-- `removeTagFromEntry(entryId, tagName)`: a no-op when no tag with the
normalized name exists, otherwise
`DELETE FROM entry_tags WHERE entry_id = ? AND tag_id = ?`. -/
def removeTagFromEntry (db : Db) (entryId tagName : String) : Db :=
  match db.tags.find? (fun t => t.name = normTagName tagName) with
  | none => db
  | some t =>
    { db with entry_tags :=
        db.entry_tags.filter (fun r => ¬(r.1 = entryId ∧ r.2 = t.id)) }

/-- `getEntryTags(entryId)`: the tags joined through `entry_tags`
(`ORDER BY t.name`; ordering is irrelevant to every statement below, the
filter keeps the `tags`-table order). -/
def getEntryTags (db : Db) (entryId : String) : List Tag :=
  db.tags.filter (fun t => db.entry_tags.contains (entryId, t.id))

/-- `linkEntries(sourceId, targetId, relationship)`:
`INSERT OR REPLACE INTO entry_links (source_id, target_id, relationship)`.
The composite primary key is the *ordered* pair; both ids carry foreign-key
constraints into `entries`. -/
def linkEntries (db : Db) (sourceId targetId : String)
    (relationship : Option String) : Except String Db :=
  if (getEntry db sourceId).isSome ∧ (getEntry db targetId).isSome then
    let row : EntryLink :=
      { source_id := sourceId, target_id := targetId, relationship := relationship }
    let kept :=
      db.entry_links.filter (fun l => ¬(l.source_id = sourceId ∧ l.target_id = targetId))
    .ok { db with entry_links := row :: kept }
  else .error "FOREIGN KEY constraint failed"

/-- `getLinkedEntries(entryId)`: the `UNION` (duplicate-eliminating) of the
join through `source_id = entryId` and the join through
`target_id = entryId`, each row annotated with the link's relationship. -/
def getLinkedEntries (db : Db) (entryId : String) :
    List (Entry × Option String) :=
  ((db.entry_links.filterMap (fun l =>
      if l.source_id = entryId then
        (getEntry db l.target_id).map (fun e => (e, l.relationship))
      else none)) ++
    (db.entry_links.filterMap (fun l =>
      if l.target_id = entryId then
        (getEntry db l.source_id).map (fun e => (e, l.relationship))
      else none))).dedup

/-- `withTransaction(fn)` (`db.ts`): runs `fn`; an exception rolls the
database back to the pre-transaction state and propagates, a normal return
commits. -/
def withTransaction {α : Type} (fn : Db → Except String (Db × α)) (db : Db) :
    Db × Except String α :=
  match fn db with
  | .ok r => (r.1, .ok r.2)
  | .error e => (db, .error e)

/-! ## Cache helpers

`JSON.stringify` / `JSON.parse` are modelled as a serialization codec for the
cached value type; `JSON.parse` throws on malformed input, modelled by
`Except`.  The round-trip law `parse (stringify v) = ok v` is the property of
the JavaScript JSON library that the cache code relies on. -/

/-- A value serializer: `stringify` never fails, `parse` may throw. -/
structure Codec (α : Type) where
  stringify : α → String
  parse : String → Except String α

/-- JavaScript `x || null` applied to a nullable string: both `undefined`
(`none`) and the falsy empty string collapse to `NULL`. -/
def jsOrNull (x : Option String) : Option String :=
  match x with
  | some s => if s = "" then none else some s
  | none => none

/-- `getCache(key, dependsOn?)`: fetches the row, reports a miss for an
absent row or a dependency-token mismatch, then `JSON.parse`s the stored
value inside a `try`/`catch` that converts a parse exception into a miss. -/
def getCache {α : Type} (c : Codec α) (db : Db) (key : String)
    (dependsOn : Option String) : Option α :=
  match db.cache.find? (fun r => r.key = key) with
  | none => none
  | some cached =>
    match dependsOn with
    | some d =>
      if cached.depends_on ≠ some d then none
      else
        match c.parse cached.value with
        | .ok v => some v
        | .error _ => none
    | none =>
      match c.parse cached.value with
      | .ok v => some v
      | .error _ => none

/-- `setCache(key, value, dependsOn?)`:
`INSERT OR REPLACE INTO cache (key, value, depends_on, ...)` binding
`JSON.stringify(value)` and `dependsOn || null`. -/
def setCache {α : Type} (c : Codec α) (db : Db) (key : String) (value : α)
    (dependsOn : Option String) : Db :=
  let row : CacheRow :=
    { key := key, value := c.stringify value, depends_on := jsOrNull dependsOn }
  let kept := db.cache.filter (fun r => r.key ≠ key)
  { db with cache := row :: kept }

/-- `getHeadAnalyzedEntry()`:
`SELECT * FROM entries WHERE status = 'analyzed' ORDER BY created_at DESC LIMIT 1`.
The fold keeps the first row of maximal `created_at` (ties are broken
arbitrarily by SQLite; no statement below depends on tie order). -/
def getHeadAnalyzedEntry (db : Db) : Option Entry :=
  (db.entries.filter (fun e => e.status = "analyzed")).foldl
    (fun acc e =>
      match acc with
      | none => some e
      | some b => if e.created_at > b.created_at then some e else some b)
    none

/-- Modelled from the spec (refinement target, not source code): "most
recently analyzed entry" — among the `analyzed` entries, the one whose
analysis happened last.  In a database produced only by creations and
analyses, an entry's analysis instant is its `updated_at`, so this picks the
analyzed entry of maximal `updated_at`. -/
def specHeadMostRecentlyAnalyzed (db : Db) : Option Entry :=
  (db.entries.filter (fun e => e.status = "analyzed")).foldl
    (fun acc e =>
      match acc with
      | none => some e
      | some b => if e.updated_at > b.updated_at then some e else some b)
    none

/-! ## Search and SQLite `LIKE`

`searchEntries` runs
`SELECT * FROM entries WHERE transcript LIKE ? ESCAPE '\' OR title LIKE ? ESCAPE '\' ORDER BY created_at DESC LIMIT ?`
with pattern `%<escaped query>%`.  SQLite's default `LIKE` is modelled
character-exactly: `%` matches any sequence, `_` any single character, the
declared escape character forces the following pattern character to be
matched literally, and comparison folds only the ASCII letters `A`–`Z`
(SQLite's built-in `LIKE` is case-insensitive for ASCII only). -/

/-- One global `.replace` pass of `escapeLikePattern`, character-wise. -/
def replaceChar (l : List Char) (target : Char) (ins : List Char) : List Char :=
  l.flatMap (fun c => if c = target then ins else [c])

/-- `escapeLikePattern(query)`: escape backslashes first, then `%`, then `_`
(the three sequential `.replace(/…/g, …)` passes of `storage.ts`). -/
def escapeLikePattern (q : List Char) : List Char :=
  replaceChar (replaceChar (replaceChar q '\\' ['\\', '\\']) '%' ['\\', '%'])
    '_' ['\\', '_']

/-- SQLite `LIKE` pattern matching with `ESCAPE '\'` and ASCII case folding
(`sqlite3` `patternCompare` restricted to the constructs `LIKE` uses).  A `%`
consumes any number of characters: `patternCompare` loops over every
candidate resumption point in the string, here the bounded search over all
drop offsets.  The escape character forces the next pattern character to be
matched as a literal; a trailing escape matches nothing. -/
def likeM : List Char → List Char → Bool
  | [], s => s.isEmpty
  | '%' :: ps, s => (List.range (s.length + 1)).any (fun n => likeM ps (s.drop n))
  | '\\' :: pc :: ps, a :: s2 => (foldChar a = foldChar pc) && likeM ps s2
  | '\\' :: _ :: _, [] => false
  | ['\\'], _ => false
  | '_' :: ps, _ :: s2 => likeM ps s2
  | '_' :: _, [] => false
  | p :: ps, a :: s2 => (foldChar a = foldChar p) && likeM ps s2
  | _ :: _, [] => false

/-- The bound pattern `%<escaped query>%` of `searchEntries`. -/
def searchPattern (query : String) : List Char :=
  '%' :: (escapeLikePattern query.data ++ ['%'])

/-- `column LIKE pattern` on a nullable column: `NULL LIKE x` is not true. -/
def likeColumn (pattern : List Char) (column : Option String) : Bool :=
  match column with
  | none => false
  | some s => likeM pattern s.data

/-- `searchEntries(query, limit)`: the `LIKE` filter over transcript and
title, ordered by `created_at DESC`, truncated to `limit`. -/
def searchEntries (db : Db) (query : String) (limit : Nat := 20) : List Entry :=
  (((db.entries.filter (fun e =>
        likeColumn (searchPattern query) e.transcript ||
          likeColumn (searchPattern query) e.title)).mergeSort
      (fun a b => b.created_at ≤ a.created_at)).take limit)

/-! ## Filenames, markdown paths and `deleteEntry` -/

/-- `path.join` for the two data directories (`config.ts` defaults). -/
def pathJoin (dir name : String) : String := dir ++ "/" ++ name

def audioDir : String := "./data/audio"
def entriesDir : String := "./data/entries"

def isLowerAlnum (c : Char) : Bool :=
  ('a' ≤ c ∧ c ≤ 'z') ∨ ('0' ≤ c ∧ c ≤ '9')

/-- Collapse runs of hyphens to a single hyphen (the `-+` global replace pass). -/
def collapseDash : List Char → List Char
  | [] => []
  | [c] => [c]
  | a :: b :: rest =>
    if a = '-' ∧ b = '-' then collapseDash (b :: rest)
    else a :: collapseDash (b :: rest)

/-- Remove one leading and one trailing hyphen (the `^-` and `-$` global replace pass). -/
def trimDash (l : List Char) : List Char :=
  let l1 := match l with
    | '-' :: rest => rest
    | other => other
  match l1.reverse with
  | '-' :: rest => rest.reverse
  | _ => l1

/-- `sanitizeFilename(title)`: lowercase, strip characters outside
`[a-z0-9\s-]`, turn whitespace into hyphens, collapse hyphen runs, trim a
leading/trailing hyphen, truncate to 100 characters.  (Replacing each
whitespace *run* by one hyphen and then collapsing hyphen runs equals
replacing each whitespace *character* by a hyphen and then collapsing, which
is how the middle step is written here.) -/
def sanitizeFilename (title : String) : String :=
  let l0 := title.toLower.data
  let l1 := l0.filter (fun c => isLowerAlnum c ∨ isWsChar c ∨ c = '-')
  let l2 := l1.map (fun c => if isWsChar c then '-' else c)
  ⟨(trimDash (collapseDash l2)).take 100⟩

/-- `getMarkdownPath(entry)`: title-slug-based once analyzed with a usable
title, id-based otherwise. -/
def getMarkdownPath (entry : Entry) : String :=
  match entry.title with
  | some t =>
    if entry.status = "analyzed" then
      let sanitized := sanitizeFilename t
      if sanitized ≠ "" then pathJoin entriesDir (sanitized ++ "--" ++ entry.id ++ ".md")
      else pathJoin entriesDir (entry.id ++ ".md")
    else pathJoin entriesDir (entry.id ++ ".md")
  | none => pathJoin entriesDir (entry.id ++ ".md")

/-- `getIdBasedMarkdownPath(entryId)`. -/
def getIdBasedMarkdownPath (entryId : String) : String :=
  pathJoin entriesDir (entryId ++ ".md")

/-- `if (existsSync(p)) { try { unlinkSync(p) } catch (e) { log } }`: the
best-effort file deletion blocks of `deleteEntry`. -/
def tryUnlink (fs : Fs) (p : String) : Fs :=
  if fs.existsSync p then
    match fs.unlinkSync p with
    | .ok fs2 => fs2
    | .error _ => fs
  else fs

/-- `deleteEntry(id)`: `false` when the id is absent; otherwise the
relational row is deleted first, inside a transaction (with the schema's
`ON DELETE CASCADE` removing its `entry_tags` and `entry_links` rows), and
only afterwards the audio file and both candidate markdown files are
best-effort deleted, swallowing filesystem errors.  Returns `true`. -/
def deleteEntry (db : Db) (fs : Fs) (id : String) : Db × Fs × Bool :=
  match getEntry db id with
  | none => (db, fs, false)
  | some entry =>
    let audioPath := entry.audio_path
    let mdPath := getMarkdownPath entry
    let idBasedMdPath := getIdBasedMarkdownPath id
    let db2 : Db :=
      { db with
          entries := db.entries.filter (fun e => e.id ≠ id),
          entry_tags := db.entry_tags.filter (fun r => r.1 ≠ id),
          entry_links := db.entry_links.filter
            (fun l => l.source_id ≠ id ∧ l.target_id ≠ id) }
    let fs1 := match audioPath with
      | some p => tryUnlink fs p
      | none => fs
    let fs2 := tryUnlink fs1 mdPath
    let fs3 := if mdPath ≠ idBasedMdPath then tryUnlink fs2 idBasedMdPath else fs2
    (db2, fs3, true)

/-! ## API handlers (`api.ts`) -/

/-- HTTP outcome of a handler, by response category. -/
inductive Resp
  | ok
  | badRequest
  | notFound
  | tooLarge
deriving DecidableEq, Repr

/-- The body of the `withTransaction` call of `POST /entries/:id/analyze`:
apply every analysis tag, create a link per related entry, then update the
entry with the analysis fields and `status: "analyzed"`.  `related` carries
`(relatedEntryId, reason)` pairs; the serialized analysis, follow-up and
trajectory JSON blobs are parameters because they are produced outside the
database. -/
def analyzeTxBody (id : String) (tagNames : List String)
    (related : List (String × Option String))
    (title analysisJson followUpJson trajectoryJson : String) (now : Nat)
    (db : Db) : Except String (Db × Option Entry) := do
  let db1 ← tagNames.foldlM (fun d n => addTagToEntry d id n) db
  let db2 ← related.foldlM (fun d r => linkEntries d id r.1 r.2) db1
  let u := updateEntry db2 id
    [("title", .vstr title), ("analysis_json", .vstr analysisJson),
      ("follow_up_questions", .vstr followUpJson),
      ("agent_trajectory", .vstr trajectoryJson), ("status", .vstr "analyzed")]
    now
  pure (u.1, u.2)

/-- The database stage of the analyze endpoint: the transaction wrapping
`analyzeTxBody`. -/
def analyzeStage (db : Db) (id : String) (tagNames : List String)
    (related : List (String × Option String))
    (title analysisJson followUpJson trajectoryJson : String) (now : Nat) :
    Db × Except String (Option Entry) :=
  withTransaction
    (analyzeTxBody id tagNames related title analysisJson followUpJson
      trajectoryJson now) db

/-- The clearing step of `POST /entries/:id/retranscribe`: remove every
existing tag of the entry, then clear title, transcript, analysis,
follow-ups and trajectory while resetting the status to
`pending_transcription`.  (The subsequent STT call and `transcribed` update
happen after this step.) -/
def retranscribeClear (db : Db) (id : String) (now : Nat) : Db :=
  let existingTags := getEntryTags db id
  let db1 := existingTags.foldl (fun d t => removeTagFromEntry d id t.name) db
  (updateEntry db1 id
    [("title", .vnull), ("transcript", .vnull), ("analysis_json", .vnull),
      ("follow_up_questions", .vnull), ("agent_trajectory", .vnull),
      ("status", .vstr "pending_transcription")]
    now).1

/-- The closed field whitelist of `UpdateEntrySchema` (`api.ts`). -/
def updateWhitelist : List String :=
  ["title", "transcript", "audio_path", "audio_duration_seconds", "status",
    "analysis_json", "follow_up_questions"]

/-- Validation of one body field by `UpdateEntrySchema`: string fields accept
only JSON strings, the duration only a number, `status` only the three enum
literals; any key outside the whitelist is rejected by `.strict()`. -/
def parseUpdateField (kv : String × JVal) : Except String (String × SqlVal) :=
  match kv.1, kv.2 with
  | "title", .jstr s => .ok ("title", .vstr s)
  | "transcript", .jstr s => .ok ("transcript", .vstr s)
  | "audio_path", .jstr s => .ok ("audio_path", .vstr s)
  | "audio_duration_seconds", .jnum n => .ok ("audio_duration_seconds", .vnum n)
  | "status", .jstr s =>
    if s = "pending_transcription" ∨ s = "transcribed" ∨ s = "analyzed" then
      .ok ("status", .vstr s)
    else .error "Invalid enum value"
  | "analysis_json", .jstr s => .ok ("analysis_json", .vstr s)
  | "follow_up_questions", .jstr s => .ok ("follow_up_questions", .vstr s)
  | k, _ =>
    if updateWhitelist.contains k then .error "Invalid type"
    else .error "Unrecognized key"

/-- `UpdateEntrySchema.safeParse(body)`: succeeds only when every field of
the body validates; a single unknown key or ill-typed value rejects the whole
body. -/
def safeParseUpdate (body : List (String × JVal)) :
    Except String (List (String × SqlVal)) :=
  body.mapM parseUpdateField

/-- `PATCH /entries/:id`: validate the body against `UpdateEntrySchema`;
reject the request wholesale (400, no write) on validation failure; otherwise
apply `updateEntry` with exactly the validated fields (404 when the id is
absent). -/
def patchEntry (db : Db) (id : String) (body : List (String × JVal))
    (now : Nat) : Db × Resp :=
  match safeParseUpdate body with
  | .error _ => (db, .badRequest)
  | .ok fields =>
    match updateEntry db id fields now with
    | (db2, some _) => (db2, .ok)
    | (_, none) => (db, .notFound)

/-- `MAX_FILE_SIZE_BYTES = 50 * 1024 * 1024`. -/
def maxFileSizeBytes : Nat := 50 * 1024 * 1024

/-- Lookup in the `chunkAccumulator` map (`.get(id) || 0`). -/
def accGet (acc : List (String × Nat)) (id : String) : Nat :=
  match acc.find? (fun r => r.1 = id) with
  | some r => r.2
  | none => 0

/-- `chunkAccumulator.set(id, n)`. -/
def accSet (acc : List (String × Nat)) (id : String) (n : Nat) :
    List (String × Nat) :=
  (id, n) :: acc.filter (fun r => r.1 ≠ id)

/-- `chunkAccumulator.delete(id)`. -/
def accDel (acc : List (String × Nat)) (id : String) : List (String × Nat) :=
  acc.filter (fun r => r.1 ≠ id)

/-- `POST /entries/:id/audio-chunk`: after the id/entry/chunk/MIME
validations, add the chunk size to the per-id accumulated total; totals over
the 50MB ceiling are rejected with a client error and the accumulator entry
dropped; otherwise the total is stored (chunk index 0 restarts it at the
chunk's own size) and, for the final chunk, the accumulator entry is dropped
and the audio path attached to the entry.  File writes touch no state a
statement below mentions and are omitted. -/
def audioChunkHandler (db : Db) (acc : List (String × Nat)) (id : String)
    (idOk hasChunk mimeOk : Bool) (chunkSize : Nat) (indexIsZero isLast : Bool)
    (ext : String) (now : Nat) : Db × List (String × Nat) × Resp :=
  if ¬ idOk then (db, acc, .badRequest)
  else
    match getEntry db id with
    | none => (db, acc, .notFound)
    | some _ =>
      if ¬ hasChunk then (db, acc, .badRequest)
      else if ¬ mimeOk then (db, acc, .badRequest)
      else
        let currentSize := accGet acc id
        let newSize := currentSize + chunkSize
        if newSize > maxFileSizeBytes then (db, accDel acc id, .tooLarge)
        else
          let audioPath := pathJoin audioDir (id ++ "." ++ ext)
          let acc1 := if indexIsZero then accSet acc id chunkSize
            else accSet acc id newSize
          if isLast then
            let acc2 := accDel acc1 id
            let u := updateEntry db id [("audio_path", .vstr audioPath)] now
            (u.1, acc2, .ok)
          else (db, acc1, .ok)

/-- `GET /interview-questions`: compute the HEAD analyzed entry's id, use it
as the dependency token of the `interview_questions` cache lookup, and on a
miss generate fresh questions (`gen`, an external AI call) and store them
under the current head token. -/
def interviewQuestionsHandler (c : Codec (List String)) (db : Db)
    (gen : List String) : Db × List String :=
  let headEntryId := (getHeadAnalyzedEntry db).map (fun e => e.id)
  match getCache c db "interview_questions" (jsOrNull headEntryId) with
  | some cached => (db, cached)
  | none =>
    match headEntryId with
    | some hid => (setCache c db "interview_questions" gen (some hid), gen)
    | none => (db, gen)

/-! ## Fixtures and small list lemmas -/

/-- A trivially round-tripping codec used to instantiate cache statements. -/
def unitCodec : Codec Unit :=
  { stringify := fun _ => "u",
    parse := fun s => if s = "u" then .ok () else .error "Unexpected token" }

/-- The empty database. -/
def emptyDb : Db :=
  { entries := [], tags := [], entry_tags := [], entry_links := [],
    cache := [], nextTagId := 1 }

/-- A transcribed entry fixture. -/
def entryFix (id : String) (cr : Nat) : Entry :=
  { id := id, created_at := cr, updated_at := cr, title := none,
    transcript := some "hello world", audio_path := some "./data/audio/a.webm",
    audio_duration_seconds := none, status := "transcribed",
    analysis_json := none, follow_up_questions := none, agent_trajectory := none }

theorem find?_fst_filter_ne (l : List (String × Nat)) (id : String) :
    (l.filter (fun r => r.1 ≠ id)).find? (fun r => r.1 = id) = none := by
  rw [List.find?_eq_none]
  intro x hx
  have hmem := List.mem_filter.mp hx
  simp only [decide_eq_true_eq, ne_eq, decide_not] at hmem ⊢
  simpa using hmem.2

theorem find?_id_filter_ne (l : List Entry) (id : String) :
    (l.filter (fun e => e.id ≠ id)).find? (fun e => e.id = id) = none := by
  rw [List.find?_eq_none]
  intro x hx
  have hmem := List.mem_filter.mp hx
  simp only [decide_eq_true_eq, ne_eq, decide_not] at hmem ⊢
  simpa using hmem.2

/-! ## C10 — `getCache` is total: a corrupted row is a miss, not a crash -/

/-- C10: `getCache` never propagates a `JSON.parse` exception: for every key,
optional dependency token and cache row whose stored value fails to parse,
the `try`/`catch` converts the parse error into a cache miss (`null`), so a
corrupted cache row cannot crash a read. -/
theorem getCache_corrupt_row_is_miss {α : Type} (c : Codec α) (db : Db)
    (key : String) (dependsOn : Option String) (row : CacheRow) (msg : String)
    (hrow : db.cache.find? (fun r => r.key = key) = some row)
    (hbad : c.parse row.value = .error msg) :
    getCache c db key dependsOn = none := by
  unfold getCache
  rw [hrow]
  cases dependsOn with
  | none => simp [hbad]
  | some d =>
    by_cases h : row.depends_on = some d <;> simp [h, hbad]

/-- A database whose only cache row stores a value that is not valid JSON. -/
def dbCorruptCache : Db :=
  { emptyDb with
      cache := [{ key := "interview_questions", value := "not json",
                  depends_on := none }] }

theorem getCache_corrupt_row_is_miss_witness :
    getCache unitCodec dbCorruptCache "interview_questions" none = none :=
  getCache_corrupt_row_is_miss unitCodec dbCorruptCache "interview_questions" none
    { key := "interview_questions", value := "not json", depends_on := none }
    "Unexpected token" (by decide) (by rfl)

/-! ## C5 — cache dependency tokens

The claim quantifies over every token `t`; it fails at `t = ""`: `setCache`
stores `dependsOn || null`, so the falsy empty-string token is stored as
`NULL`, and a subsequent `getCache(k, "")` compares `NULL !== ""` and
misses. -/

/-- C5 counterexample: after `setCache("q", v, "")`, `getCache("q", "")` is a
miss, not the stored value — the claimed round trip fails at the
empty-string dependency token. -/
theorem setCache_empty_token_misses :
    getCache unitCodec (setCache unitCodec emptyDb "q" () (some "")) "q"
        (some "") = none ∧
      getCache unitCodec (setCache unitCodec emptyDb "q" () (some "")) "q"
        (some "") ≠ some () := by
  constructor
  · decide
  · decide

/-- C5 amended: for every nonempty dependency token `t` (the empty string is
normalized to "no token" by `dependsOn || null`), after `setCache(k, v, t)`:
`getCache(k, t)` returns `v`; `getCache(k, t2)` misses for every `t2 ≠ t`;
`getCache` of a key with no stored row misses; and `getCache(k)` without a
token returns the stored value regardless of the stored token. -/
theorem cache_dependency_tokens {α : Type} (c : Codec α)
    (hc : ∀ v, c.parse (c.stringify v) = .ok v)
    (db : Db) (k : String) (v : α) (t : String) (ht : t ≠ "") :
    getCache c (setCache c db k v (some t)) k (some t) = some v ∧
    (∀ t2, t2 ≠ t → getCache c (setCache c db k v (some t)) k (some t2) = none) ∧
    (∀ k2 dep, db.cache.find? (fun r => r.key = k2) = none →
      getCache c db k2 dep = none) ∧
    getCache c (setCache c db k v (some t)) k none = some v := by
  have hfind : (setCache c db k v (some t)).cache.find? (fun r => r.key = k) =
      some { key := k, value := c.stringify v, depends_on := some t } := by
    unfold setCache jsOrNull
    simp [ht, List.find?_cons]
  refine ⟨?_, ?_, ?_, ?_⟩
  · unfold getCache
    rw [hfind]
    simp [hc v]
  · intro t2 ht2
    unfold getCache
    rw [hfind]
    simp [ht2, Ne.symm ht2]
  · intro k2 dep hnone
    unfold getCache
    rw [hnone]
  · unfold getCache
    rw [hfind]
    simp [hc v]

theorem cache_dependency_tokens_witness :
    ("tokenA" : String) ≠ "" ∧
    getCache unitCodec (setCache unitCodec emptyDb "q" () (some "tokenA")) "q"
      (some "tokenA") = some () ∧
    getCache unitCodec (setCache unitCodec emptyDb "q" () (some "tokenA")) "q"
      (some "tokenB") = none :=
  have h := cache_dependency_tokens unitCodec (fun v => by cases v; rfl)
    emptyDb "q" () "tokenA" (by decide)
  ⟨by decide, h.1, h.2.1 "tokenB" (by decide)⟩

/-! ## C9 — chunked-upload accumulator limit and cleanup -/

/-- C9: for a chunk upload that passes the id/entry/chunk/MIME validations:
a chunk whose addition pushes the per-id running total over the 50MB ceiling
is rejected with a client error and the accumulator entry for the id is
removed; and processing the final chunk also removes the accumulator entry —
after either event the accumulator holds no entry for the id. -/
theorem audioChunk_limit_and_cleanup (db : Db) (acc : List (String × Nat))
    (id : String) (e : Entry) (chunkSize : Nat) (indexIsZero isLast : Bool)
    (ext : String) (now : Nat) (he : getEntry db id = some e) :
    (accGet acc id + chunkSize > maxFileSizeBytes →
      audioChunkHandler db acc id true true true chunkSize indexIsZero isLast
          ext now = (db, accDel acc id, .tooLarge) ∧
        (accDel acc id).find? (fun r => r.1 = id) = none) ∧
    (accGet acc id + chunkSize ≤ maxFileSizeBytes → isLast = true →
      ((audioChunkHandler db acc id true true true chunkSize indexIsZero isLast
          ext now).2.1.find? (fun r => r.1 = id) = none ∧
        (audioChunkHandler db acc id true true true chunkSize indexIsZero isLast
          ext now).2.2 = .ok)) := by
  constructor
  · intro hover
    constructor
    · unfold audioChunkHandler
      rw [he]
      simp only [Bool.not_true, not_false_eq_true, if_neg, ite_false, if_pos hover]
      simp
    · exact find?_fst_filter_ne acc id
  · intro hle hlast
    subst hlast
    have hnotover : ¬ (accGet acc id + chunkSize > maxFileSizeBytes) := by omega
    unfold audioChunkHandler
    rw [he]
    simp only [Bool.not_true, not_false_eq_true, if_neg, ite_false, hnotover]
    cases indexIsZero <;>
      simp [accDel, accSet, find?_fst_filter_ne, List.filter_filter]

theorem audioChunk_limit_and_cleanup_witness :
    accGet [("e1", maxFileSizeBytes)] "e1" + 1 > maxFileSizeBytes ∧
    audioChunkHandler { emptyDb with entries := [entryFix "e1" 1] }
        [("e1", maxFileSizeBytes)] "e1" true true true 1 false false "webm" 7 =
      ({ emptyDb with entries := [entryFix "e1" 1] },
        accDel [("e1", maxFileSizeBytes)] "e1", .tooLarge) :=
  have h := audioChunk_limit_and_cleanup
    { emptyDb with entries := [entryFix "e1" 1] } [("e1", maxFileSizeBytes)]
    "e1" (entryFix "e1" 1) 1 false false "webm" 7 (by rfl)
  ⟨by decide, (h.1 (by decide)).1⟩

/-! ## C2 — update-field whitelist

`UpdateEntrySchema` is `.strict()` and enumerates seven fields; the claim's
whitelist of eight fails because `agent_trajectory` is not among them — a
request carrying it is rejected with 400, as the security test suite's
schema mirror also demands for unknown keys. -/

theorem parseUpdateField_ok_key (kv : String × JVal) (out : String × SqlVal)
    (h : parseUpdateField kv = .ok out) :
    updateWhitelist.contains kv.1 = true ∧ out.1 = kv.1 := by
  obtain ⟨k, v⟩ := kv
  unfold parseUpdateField at h
  split at h <;> try split_ifs at h
  all_goals first
    | exact Except.noConfusion h
    | (subst_vars; injection h with h2; subst h2; exact ⟨rfl, rfl⟩)

theorem mapM_parseUpdateField_ok (l : List (String × JVal))
    (ys : List (String × SqlVal)) (h : l.mapM parseUpdateField = .ok ys) :
    (∀ x ∈ l, ∃ y, parseUpdateField x = .ok y) ∧
      (∀ y ∈ ys, ∃ x ∈ l, parseUpdateField x = .ok y) := by
  induction l generalizing ys with
  | nil =>
    simp only [List.mapM_nil, pure, Except.pure] at h
    cases h
    simp
  | cons a l ih =>
    rw [List.mapM_cons] at h
    cases ha : parseUpdateField a with
    | error msg =>
      rw [ha] at h
      simp only [Bind.bind, Except.bind] at h
      exact Except.noConfusion h
    | ok y =>
      rw [ha] at h
      cases hl : l.mapM parseUpdateField with
      | error msg =>
        rw [hl] at h
        simp only [Bind.bind, Except.bind, pure, Except.pure] at h
        exact Except.noConfusion h
      | ok ys2 =>
        rw [hl] at h
        simp only [Bind.bind, Except.bind, pure, Except.pure,
          Except.ok.injEq] at h
        obtain ⟨ih1, ih2⟩ := ih ys2 hl
        subst h
        constructor
        · intro x hx
          rcases hx with _ | hx
          · exact ⟨y, ha⟩
          · exact ih1 x (by assumption)
        · intro z hz
          rcases hz with _ | hz
          · exact ⟨a, by simp, ha⟩
          · obtain ⟨x, hx, hxy⟩ := ih2 z (by assumption)
            exact ⟨x, by simp [hx], hxy⟩

/-- C2 counterexample: the update whitelist does not contain
`agent_trajectory` — a PATCH body setting it is rejected with 400 and no
write, refuting the claimed eight-field whitelist. -/
theorem patch_agent_trajectory_rejected :
    patchEntry { emptyDb with entries := [entryFix "e1" 1] } "e1"
        [("agent_trajectory", JVal.jstr "x")] 9 =
      ({ emptyDb with entries := [entryFix "e1" 1] }, Resp.badRequest) ∧
    (patchEntry { emptyDb with entries := [entryFix "e1" 1] } "e1"
        [("agent_trajectory", JVal.jstr "x")] 9).2 ≠ Resp.ok := by
  constructor
  · rfl
  · decide

/-- C2 amended: the update operation accepts exactly the seven mutable fields
title, transcript, audio_path, audio_duration_seconds, status, analysis_json
and follow_up_questions (`agent_trajectory` is not client-updatable); every
request containing a field name outside this whitelist is rejected entirely
with the database unchanged; and the dynamic `SET` column list is built only
from schema-validated keys inside the whitelist. -/
theorem patch_whitelist_enforced (db : Db) (id : String)
    (body : List (String × JVal)) (now : Nat) :
    ((∃ kv ∈ body, updateWhitelist.contains kv.1 = false) →
      patchEntry db id body now = (db, .badRequest)) ∧
    (∀ fields, safeParseUpdate body = .ok fields →
      ∀ kv ∈ fields, updateWhitelist.contains kv.1 = true) := by
  constructor
  · rintro ⟨kv, hmem, hko⟩
    cases hp : safeParseUpdate body with
    | error msg => unfold patchEntry; rw [hp]
    | ok fields =>
      obtain ⟨h1, _⟩ := mapM_parseUpdateField_ok body fields hp
      obtain ⟨y, hy⟩ := h1 kv hmem
      have := (parseUpdateField_ok_key kv y hy).1
      rw [this] at hko
      cases hko
  · intro fields hp kv hkv
    obtain ⟨_, h2⟩ := mapM_parseUpdateField_ok body fields hp
    obtain ⟨x, _, hok⟩ := h2 kv hkv
    obtain ⟨hc, hk⟩ := parseUpdateField_ok_key x kv hok
    rw [hk]
    exact hc

theorem patch_whitelist_enforced_witness :
    patchEntry emptyDb "e1" [("bogus", JVal.jstr "y")] 0 =
      (emptyDb, .badRequest) :=
  (patch_whitelist_enforced emptyDb "e1" [("bogus", JVal.jstr "y")] 0).1
    (by decide)

/-! ## C3 — delete ordering and best-effort file cleanup -/

/-- C3: `deleteEntry` returns `false` and changes nothing when the id is
absent; otherwise the relational row is deleted (first, inside the
transaction) and the operation reports success for *every* filesystem state
and failure oracle — in particular when the audio file is already gone or a
file deletion throws. -/
theorem deleteEntry_spec (db : Db) (fs : Fs) (id : String) :
    (getEntry db id = none → deleteEntry db fs id = (db, fs, false)) ∧
    (∀ e, getEntry db id = some e →
      (deleteEntry db fs id).2.2 = true ∧
      getEntry (deleteEntry db fs id).1 id = none) := by
  constructor
  · intro h
    unfold deleteEntry
    rw [h]
  · intro e h
    unfold deleteEntry
    rw [h]
    exact ⟨rfl, find?_id_filter_ne db.entries id⟩

theorem deleteEntry_spec_witness :
    (deleteEntry { emptyDb with entries := [entryFix "e1" 1] }
        { files := [], failing := ["./data/entries/e1.md"] } "e1").2.2 = true ∧
    deleteEntry { emptyDb with entries := [entryFix "e1" 1] }
        { files := [], failing := ["./data/entries/e1.md"] } "missing" =
      ({ emptyDb with entries := [entryFix "e1" 1] },
        { files := [], failing := ["./data/entries/e1.md"] }, false) :=
  ⟨((deleteEntry_spec { emptyDb with entries := [entryFix "e1" 1] }
      { files := [], failing := ["./data/entries/e1.md"] } "e1").2
      (entryFix "e1" 1) (by rfl)).1,
    (deleteEntry_spec { emptyDb with entries := [entryFix "e1" 1] }
      { files := [], failing := ["./data/entries/e1.md"] } "missing").1 (by rfl)⟩

/-! ## Helper lemmas on `updateEntry` and tag removal -/

theorem applyField_id (e : Entry) (kv : String × SqlVal) :
    (applyField e kv).id = e.id := by
  unfold applyField
  split <;> rfl

theorem foldl_applyField_id (ups : List (String × SqlVal)) (e : Entry) :
    (ups.foldl applyField e).id = e.id := by
  induction ups generalizing e with
  | nil => rfl
  | cons a l ih => rw [List.foldl_cons, ih, applyField_id]

theorem find?_map_keyed_update (l : List Entry) (id : String)
    (f : Entry → Entry) (hf : ∀ e, (f e).id = e.id) (e0 : Entry)
    (h : l.find? (fun e => e.id = id) = some e0) :
    (l.map (fun x => if x.id = id then f x else x)).find?
      (fun e => e.id = id) = some (f e0) := by
  induction l with
  | nil => simp at h
  | cons a l ih =>
    by_cases ha : a.id = id
    · rw [List.find?_cons_of_pos l (by simpa using ha)] at h
      injection h with h2
      subst h2
      rw [List.map_cons, if_pos ha,
        List.find?_cons_of_pos _ (by simpa [hf] using ha)]
    · rw [List.find?_cons_of_neg l (by simpa using ha)] at h
      rw [List.map_cons, if_neg ha,
        List.find?_cons_of_neg _ (by simpa using ha)]
      exact ih h

theorem updateEntry_tags (db : Db) (id : String)
    (ups : List (String × SqlVal)) (now : Nat) :
    (updateEntry db id ups now).1.tags = db.tags := by
  unfold updateEntry
  cases getEntry db id <;> rfl

theorem updateEntry_entry_tags (db : Db) (id : String)
    (ups : List (String × SqlVal)) (now : Nat) :
    (updateEntry db id ups now).1.entry_tags = db.entry_tags := by
  unfold updateEntry
  cases getEntry db id <;> rfl

theorem getEntry_after_update (db : Db) (id : String)
    (ups : List (String × SqlVal)) (now : Nat) (e0 : Entry)
    (h : getEntry db id = some e0) :
    getEntry (updateEntry db id ups now).1 id =
      some (ups.foldl applyField { e0 with updated_at := now }) := by
  unfold updateEntry
  rw [h]
  exact find?_map_keyed_update db.entries id
    (fun x => ups.foldl applyField { x with updated_at := now })
    (fun e => foldl_applyField_id ups { e with updated_at := now }) e0 h

theorem removeTag_tags (db : Db) (id n : String) :
    (removeTagFromEntry db id n).tags = db.tags := by
  unfold removeTagFromEntry
  cases db.tags.find? (fun t => t.name = normTagName n) <;> rfl

theorem removeTag_entries (db : Db) (id n : String) :
    (removeTagFromEntry db id n).entries = db.entries := by
  unfold removeTagFromEntry
  cases db.tags.find? (fun t => t.name = normTagName n) <;> rfl

theorem removeTag_entry_tags_subset (db : Db) (id n : String) :
    ∀ x ∈ (removeTagFromEntry db id n).entry_tags, x ∈ db.entry_tags := by
  unfold removeTagFromEntry
  cases db.tags.find? (fun t => t.name = normTagName n) with
  | none => exact fun x hx => hx
  | some t => exact fun x hx => (List.mem_filter.mp hx).1

theorem removeTag_removes (db : Db) (id : String) (t : Tag)
    (ht : t ∈ db.tags) (hnorm : normTagName t.name = t.name)
    (huniq : (db.tags.map Tag.name).Nodup) :
    (id, t.id) ∉ (removeTagFromEntry db id t.name).entry_tags := by
  unfold removeTagFromEntry
  rw [hnorm]
  cases hf : db.tags.find? (fun tg => tg.name = t.name) with
  | none =>
    exfalso
    have := List.find?_eq_none.mp hf t ht
    simp at this
  | some t2 =>
    have ht2mem := List.mem_of_find?_eq_some hf
    have ht2name : t2.name = t.name := by
      have := List.find?_some hf
      simpa using this
    have heq : t2 = t := List.inj_on_of_nodup_map huniq ht2mem ht ht2name
    subst heq
    intro hmem
    have := (List.mem_filter.mp hmem).2
    simp at this

theorem removeFold_clears (db0 : Db) (id : String)
    (hnorm : ∀ t ∈ db0.tags, normTagName t.name = t.name)
    (huniq : (db0.tags.map Tag.name).Nodup) :
    ∀ (L : List Tag) (d : Db), d.tags = db0.tags →
      (L.foldl (fun x t => removeTagFromEntry x id t.name) d).tags = db0.tags ∧
      (L.foldl (fun x t => removeTagFromEntry x id t.name) d).entries =
        d.entries ∧
      (∀ x, x ∈ (L.foldl (fun x t => removeTagFromEntry x id t.name) d).entry_tags →
        x ∈ d.entry_tags) ∧
      (∀ t ∈ L, t ∈ db0.tags →
        (id, t.id) ∉
          (L.foldl (fun x t => removeTagFromEntry x id t.name) d).entry_tags) := by
  intro L
  induction L with
  | nil =>
    intro d hd
    exact ⟨hd, rfl, fun x hx => hx, by simp⟩
  | cons t L ih =>
    intro d hd
    rw [List.foldl_cons]
    have hd1 : (removeTagFromEntry d id t.name).tags = db0.tags := by
      rw [removeTag_tags, hd]
    obtain ⟨ih1, ih2, ih3, ih4⟩ := ih (removeTagFromEntry d id t.name) hd1
    refine ⟨ih1, by rw [ih2, removeTag_entries], ?_, ?_⟩
    · intro x hx
      exact removeTag_entry_tags_subset d id t.name x (ih3 x hx)
    · intro t2 ht2 ht2mem
      cases ht2 with
      | head =>
        intro hcon
        have hd2 : t ∈ d.tags := by rw [hd]; exact ht2mem
        have hrm := removeTag_removes d id t hd2
          (hnorm t ht2mem) (by rw [hd]; exact huniq)
        exact hrm (ih3 _ hcon)
      | tail b ht2 => exact ih4 t2 ht2 ht2mem

/-! ## C4 — re-transcription clears tags and analysis fields -/

/-- C4: for a database whose tag names are normalized and unique (the
invariant `getOrCreateTag` maintains), the clearing step of the
re-transcription endpoint leaves the entry with zero associated tags —
before any new analysis runs — and clears title, transcript, analysis,
follow-ups and trajectory while resetting the status to
`pending_transcription`. -/
theorem contains_false_of_not_mem (l : List (String × Nat))
    (x : String × Nat) (h : x ∉ l) : l.contains x = false := by
  simpa using h

theorem retranscribe_clears_tags (db : Db) (id : String) (now : Nat)
    (e0 : Entry) (hnorm : ∀ t ∈ db.tags, normTagName t.name = t.name)
    (huniq : (db.tags.map Tag.name).Nodup)
    (he : getEntry db id = some e0) :
    getEntryTags (retranscribeClear db id now) id = [] ∧
    ∃ e1, getEntry (retranscribeClear db id now) id = some e1 ∧
      e1.title = none ∧ e1.transcript = none ∧ e1.analysis_json = none ∧
      e1.follow_up_questions = none ∧ e1.agent_trajectory = none ∧
      e1.status = "pending_transcription" := by
  have hmemL : ∀ t ∈ db.tags, (id, t.id) ∈ db.entry_tags →
      t ∈ getEntryTags db id := by
    intro t ht hin
    unfold getEntryTags
    rw [List.mem_filter]
    exact ⟨ht, by simpa using hin⟩
  unfold retranscribeClear
  set L := getEntryTags db id with hL
  obtain ⟨h1, h2, h3, h4⟩ := removeFold_clears db id hnorm huniq L db rfl
  have hge : getEntry
      (L.foldl (fun d t => removeTagFromEntry d id t.name) db) id = some e0 := by
    unfold getEntry
    rw [h2]
    exact he
  constructor
  · unfold getEntryTags
    rw [updateEntry_tags, updateEntry_entry_tags, h1]
    rw [List.filter_eq_nil_iff]
    intro t ht
    simp only [Bool.not_eq_true]
    apply contains_false_of_not_mem
    by_cases hin : (id, t.id) ∈ db.entry_tags
    · exact h4 t (hmemL t ht hin) ht
    · intro hcon
      exact hin (h3 _ hcon)
  · refine ⟨_, getEntry_after_update _ id _ now e0 hge, ?_, ?_, ?_, ?_, ?_, ?_⟩
      <;> rfl

/-- An entry carrying the tags `work` and `travel`, the spec's example. -/
def dbTagged : Db :=
  { entries := [entryFix "e1" 1], tags := [⟨1, "work"⟩, ⟨2, "travel"⟩],
    entry_tags := [("e1", 1), ("e1", 2)], entry_links := [], cache := [],
    nextTagId := 3 }

theorem retranscribe_clears_tags_witness :
    (∀ t ∈ dbTagged.tags, normTagName t.name = t.name) ∧
    getEntryTags dbTagged "e1" = [⟨1, "work"⟩, ⟨2, "travel"⟩] ∧
    getEntryTags (retranscribeClear dbTagged "e1" 5) "e1" = [] :=
  ⟨by decide, by decide,
    (retranscribe_clears_tags dbTagged "e1" 5 (entryFix "e1" 1)
      (by decide) (by decide) (by rfl)).1⟩

/-! ## C1 — analysis stage atomicity -/

theorem getOrCreateTag_entries (db : Db) (n : String) :
    (getOrCreateTag db n).1.entries = db.entries := by
  unfold getOrCreateTag
  split <;> rfl

theorem addTagToEntry_entries (d : Db) (id n : String) (d2 : Db)
    (h : addTagToEntry d id n = .ok d2) : d2.entries = d.entries := by
  simp only [addTagToEntry] at h
  split at h
  · split at h <;> (injection h with h2; subst h2)
    · exact getOrCreateTag_entries d n
    · exact getOrCreateTag_entries d n
  · exact Except.noConfusion h

theorem linkEntries_entries (d : Db) (s t : String) (r : Option String)
    (d2 : Db) (h : linkEntries d s t r = .ok d2) : d2.entries = d.entries := by
  unfold linkEntries at h
  split at h
  · injection h with h2
    subst h2
    rfl
  · exact Except.noConfusion h

theorem foldlM_entries {β : Type} (f : Db → β → Except String Db)
    (hf : ∀ d x d2, f d x = .ok d2 → d2.entries = d.entries) :
    ∀ (l : List β) (d d2 : Db), l.foldlM f d = .ok d2 → d2.entries = d.entries := by
  intro l
  induction l with
  | nil =>
    intro d d2 h
    simp only [List.foldlM_nil, pure, Except.pure] at h
    cases h
    rfl
  | cons a l ih =>
    intro d d2 h
    rw [List.foldlM_cons] at h
    cases ha : f d a with
    | error msg =>
      rw [ha] at h
      simp only [Bind.bind, Except.bind] at h
      exact Except.noConfusion h
    | ok d1 =>
      rw [ha] at h
      simp only [Bind.bind, Except.bind] at h
      rw [ih d1 d2 h, hf d a d1 ha]

theorem analyzeTxBody_ok (db : Db) (id : String) (tagNames : List String)
    (related : List (String × Option String)) (t a f tr : String) (now : Nat)
    (e0 : Entry) (he : getEntry db id = some e0) (r : Db × Option Entry)
    (hb : analyzeTxBody id tagNames related t a f tr now db = .ok r) :
    ∃ e1, r.2 = some e1 ∧ getEntry r.1 id = some e1 ∧
      e1.status = "analyzed" ∧ e1.title = some t ∧ e1.analysis_json = some a ∧
      e1.follow_up_questions = some f ∧ e1.agent_trajectory = some tr := by
  unfold analyzeTxBody at hb
  cases h1 : tagNames.foldlM (fun d n => addTagToEntry d id n) db with
  | error msg =>
    rw [h1] at hb
    simp only [Bind.bind, Except.bind] at hb
    exact Except.noConfusion hb
  | ok db1 =>
    rw [h1] at hb
    simp only [Bind.bind, Except.bind] at hb
    cases h2 : related.foldlM (fun d r2 => linkEntries d id r2.1 r2.2) db1 with
    | error msg =>
      rw [h2] at hb
      exact Except.noConfusion hb
    | ok db2 =>
      rw [h2] at hb
      simp only [pure, Except.pure, Except.ok.injEq] at hb
      have hent1 : db1.entries = db.entries :=
        foldlM_entries _ (fun d x d2 h => addTagToEntry_entries d id x d2 h)
          tagNames db db1 h1
      have hent2 : db2.entries = db1.entries :=
        foldlM_entries _ (fun d x d2 h => linkEntries_entries d id x.1 x.2 d2 h)
          related db1 db2 h2
      have hge : getEntry db2 id = some e0 := by
        unfold getEntry
        rw [hent2, hent1]
        exact he
      subst hb
      have hu2 : (updateEntry db2 id
          [("title", SqlVal.vstr t), ("analysis_json", SqlVal.vstr a),
            ("follow_up_questions", SqlVal.vstr f),
            ("agent_trajectory", SqlVal.vstr tr),
            ("status", SqlVal.vstr "analyzed")] now).2 =
          some ([("title", SqlVal.vstr t), ("analysis_json", SqlVal.vstr a),
            ("follow_up_questions", SqlVal.vstr f),
            ("agent_trajectory", SqlVal.vstr tr),
            ("status", SqlVal.vstr "analyzed")].foldl applyField
              { e0 with updated_at := now }) := by
        unfold updateEntry
        rw [hge]
      exact ⟨_, hu2, getEntry_after_update db2 id _ now e0 hge,
        rfl, rfl, rfl, rfl, rfl⟩

/-- C1: the analysis stage's database effects (tag association, link
creation, the entry update to `analyzed`) run inside one `withTransaction`
call: if any sub-step throws (for instance a link to a nonexistent related
entry violating its foreign key), the database is exactly its
pre-transaction state — status, tag set and link set included — and the
exception propagates; if no sub-step throws, the transaction commits and
returns the updated entry, now `analyzed` with the analysis fields set. -/
theorem analyzeStage_atomic (db : Db) (id : String) (tagNames : List String)
    (related : List (String × Option String)) (t a f tr : String) (now : Nat)
    (e0 : Entry) (he : getEntry db id = some e0) :
    (∀ msg, (analyzeStage db id tagNames related t a f tr now).2 = .error msg →
      (analyzeStage db id tagNames related t a f tr now).1 = db) ∧
    (∀ x, (analyzeStage db id tagNames related t a f tr now).2 = .ok x →
      ∃ e1, x = some e1 ∧
        getEntry (analyzeStage db id tagNames related t a f tr now).1 id =
          some e1 ∧
        e1.status = "analyzed" ∧ e1.title = some t ∧ e1.analysis_json = some a ∧
        e1.follow_up_questions = some f ∧ e1.agent_trajectory = some tr) := by
  unfold analyzeStage withTransaction
  cases hb : analyzeTxBody id tagNames related t a f tr now db with
  | error msg =>
    constructor
    · intro _ _
      rfl
    · intro x hx
      exact Except.noConfusion hx
  | ok r =>
    constructor
    · intro msg hmsg
      exact Except.noConfusion hmsg
    · intro x hx
      injection hx with hx2
      subst hx2
      exact analyzeTxBody_ok db id tagNames related t a f tr now e0 he r hb

theorem analyzeStage_atomic_witness :
    (analyzeStage { emptyDb with entries := [entryFix "e1" 1] } "e1" ["focus"]
        [("missing", some "rel")] "T" "{}" "[]" "{}" 8).2 =
      .error "FOREIGN KEY constraint failed" ∧
    (analyzeStage { emptyDb with entries := [entryFix "e1" 1] } "e1" ["focus"]
        [("missing", some "rel")] "T" "{}" "[]" "{}" 8).1 =
      { emptyDb with entries := [entryFix "e1" 1] } :=
  ⟨by rfl,
    (analyzeStage_atomic { emptyDb with entries := [entryFix "e1" 1] } "e1"
        ["focus"] [("missing", some "rel")] "T" "{}" "[]" "{}" 8
        (entryFix "e1" 1) (by rfl)).1
      "FOREIGN KEY constraint failed" (by rfl)⟩

/-! ## C6 — entry links are directed, upsert per ordered pair -/

/-- Two entries with no links yet. -/
def dbPair : Db := { emptyDb with entries := [entryFix "a" 1, entryFix "b" 2] }

/-- C6 counterexample: linking the same pair in the two argument orders
creates two distinct edges for the unordered pair — the composite primary
key is the ordered pair, so re-linking in reversed order does not update the
existing edge. -/
theorem linkEntries_reversed_pair_duplicates :
    ∃ d1 d2, linkEntries dbPair "a" "b" (some "r1") = .ok d1 ∧
      linkEntries d1 "b" "a" (some "r2") = .ok d2 ∧
      (d2.entry_links.filter (fun l =>
        (l.source_id = "a" ∧ l.target_id = "b") ∨
          (l.source_id = "b" ∧ l.target_id = "a"))).length = 2 :=
  ⟨{ dbPair with entry_links := [⟨"a", "b", some "r1"⟩] },
    { dbPair with entry_links := [⟨"b", "a", some "r2"⟩, ⟨"a", "b", some "r1"⟩] },
    by rfl, by rfl, by rfl⟩

theorem link_if_map_eq_some (cond : Prop) [Decidable cond]
    (o : Option Entry) (rel : Option String) (p : Entry × Option String) :
    ((if cond then o.map (fun e => (e, rel)) else none) = some p) ↔
      (cond ∧ o = some p.1 ∧ rel = p.2) := by
  split_ifs with hc
  · cases o with
    | none => simp [hc]
    | some e =>
      constructor
      · intro h
        have hp : p = (e, rel) := (Option.some.inj h).symm
        subst hp
        exact ⟨hc, rfl, rfl⟩
      · rintro ⟨-, h1, h2⟩
        have he : e = p.1 := Option.some.inj h1
        show some (e, rel) = some p
        rw [he, h2]
  · simp [hc]

/-- C6 amended: `entry_links` edges are directed with upsert semantics per
*ordered* pair: calling `linkEntries` twice with the same argument order
keeps a single edge for that ordered pair carrying the second reason (and
the total edge count is unchanged by the re-link), while `getLinkedEntries`
returns the entries connected in either direction annotated with the
relationship text.  (Reversing the argument order creates a second, distinct
directed edge — see the counterexample.) -/
theorem linkEntries_ordered_upsert (db : Db) (s t : String)
    (r1 r2 : Option String) (d1 d2 : Db)
    (h1 : linkEntries db s t r1 = .ok d1)
    (h2 : linkEntries d1 s t r2 = .ok d2) :
    (d2.entry_links.filter (fun l => l.source_id = s ∧ l.target_id = t)).length
        = 1 ∧
    (∀ l ∈ d2.entry_links, l.source_id = s ∧ l.target_id = t →
      l.relationship = r2) ∧
    d2.entry_links.length = d1.entry_links.length ∧
    (∀ (db3 : Db) (x : String) (p : Entry × Option String),
      p ∈ getLinkedEntries db3 x ↔
        (∃ l ∈ db3.entry_links, l.source_id = x ∧
          getEntry db3 l.target_id = some p.1 ∧ l.relationship = p.2) ∨
        (∃ l ∈ db3.entry_links, l.target_id = x ∧
          getEntry db3 l.source_id = some p.1 ∧ l.relationship = p.2)) := by
  unfold linkEntries at h1 h2
  split at h1
  case isFalse => exact Except.noConfusion h1
  split at h2
  case isFalse => exact Except.noConfusion h2
  injection h1 with h1
  injection h2 with h2
  subst h1
  subst h2
  have hK : ∀ l ∈ db.entry_links.filter
      (fun l => ¬(l.source_id = s ∧ l.target_id = t)),
      ¬(l.source_id = s ∧ l.target_id = t) :=
    fun l hl => of_decide_eq_true (List.mem_filter.mp hl).2
  have hlinks2 :
      (({ source_id := s, target_id := t, relationship := r1 } : EntryLink) ::
          db.entry_links.filter
            (fun l => ¬(l.source_id = s ∧ l.target_id = t))).filter
        (fun l => ¬(l.source_id = s ∧ l.target_id = t)) =
      db.entry_links.filter (fun l => ¬(l.source_id = s ∧ l.target_id = t)) := by
    rw [List.filter_cons, if_neg (by simp), List.filter_filter]
    exact List.filter_congr (fun l _ => by simp)
  have hnil : (db.entry_links.filter
      (fun l => ¬(l.source_id = s ∧ l.target_id = t))).filter
      (fun l => l.source_id = s ∧ l.target_id = t) = [] := by
    rw [List.filter_eq_nil_iff]
    intro l hl
    simpa using hK l hl
  refine ⟨?_, ?_, ?_, ?_⟩
  · show ((({ source_id := s, target_id := t, relationship := r2 } : EntryLink) ::
        _).filter (fun l => l.source_id = s ∧ l.target_id = t)).length = 1
    rw [List.filter_cons, if_pos (by simp), hlinks2, hnil]
    rfl
  · intro l hl hst
    dsimp only at hl
    rw [hlinks2] at hl
    cases hl with
    | head => rfl
    | tail b hl => exact absurd hst (hK l hl)
  · dsimp only
    rw [hlinks2]
    rfl
  · intro db3 x p
    unfold getLinkedEntries
    rw [List.mem_dedup, List.mem_append]
    rw [List.mem_filterMap, List.mem_filterMap]
    constructor
    · rintro (⟨l, hl, hsome⟩ | ⟨l, hl, hsome⟩)
      · obtain ⟨hc, ho, hr⟩ := (link_if_map_eq_some _ _ _ p).mp hsome
        exact .inl ⟨l, hl, hc, ho, hr⟩
      · obtain ⟨hc, ho, hr⟩ := (link_if_map_eq_some _ _ _ p).mp hsome
        exact .inr ⟨l, hl, hc, ho, hr⟩
    · rintro (⟨l, hl, hc, ho, hr⟩ | ⟨l, hl, hc, ho, hr⟩)
      · exact .inl ⟨l, hl, (link_if_map_eq_some _ _ _ p).mpr ⟨hc, ho, hr⟩⟩
      · exact .inr ⟨l, hl, (link_if_map_eq_some _ _ _ p).mpr ⟨hc, ho, hr⟩⟩

theorem linkEntries_ordered_upsert_witness :
    (({ dbPair with entry_links := [⟨"a", "b", some "r2"⟩] } : Db).entry_links.filter
      (fun l => l.source_id = "a" ∧ l.target_id = "b")).length = 1 :=
  (linkEntries_ordered_upsert dbPair "a" "b" (some "r1") (some "r2")
    { dbPair with entry_links := [⟨"a", "b", some "r1"⟩] }
    { dbPair with entry_links := [⟨"a", "b", some "r2"⟩] }
    (by rfl) (by rfl)).1

/-! ## C7 — the HEAD analyzed entry

`getHeadAnalyzedEntry` orders by `created_at`, so it returns the most
recently *created* analyzed entry; when an older entry is re-analyzed after
a newer one, the entry whose analysis happened last is not the one
returned. -/

/-- Two entries analyzed out of creation order: the later-created `e2` is
analyzed at tick 3, then the earlier-created `e1` at tick 4. -/
def dbHead : Db :=
  (analyzeStage
    (analyzeStage { emptyDb with entries := [entryFix "e1" 1, entryFix "e2" 2] }
      "e2" [] [] "T2" "{}" "[]" "{}" 3).1
    "e1" [] [] "T1" "{}" "[]" "{}" 4).1

/-- The `e1` row of `dbHead`: created at tick 1, analyzed at tick 4. -/
def e1Analyzed : Entry :=
  { id := "e1", created_at := 1, updated_at := 4, title := some "T1",
    transcript := some "hello world", audio_path := some "./data/audio/a.webm",
    audio_duration_seconds := none, status := "analyzed",
    analysis_json := some "{}", follow_up_questions := some "[]",
    agent_trajectory := some "{}" }

/-- The `e2` row of `dbHead`: created at tick 2, analyzed at tick 3. -/
def e2Analyzed : Entry :=
  { id := "e2", created_at := 2, updated_at := 3, title := some "T2",
    transcript := some "hello world", audio_path := some "./data/audio/a.webm",
    audio_duration_seconds := none, status := "analyzed",
    analysis_json := some "{}", follow_up_questions := some "[]",
    agent_trajectory := some "{}" }

/-- C7 counterexample: in `dbHead` every entry is analyzed, the analysis of
`e1` happened last (it has the strictly greatest `updated_at`), yet
`getHeadAnalyzedEntry` returns `e2` — the claimed "entry whose analysis
happened last" is not what the query returns. -/
theorem head_is_not_last_analyzed :
    (getHeadAnalyzedEntry dbHead).map Entry.id = some "e2" ∧
    (specHeadMostRecentlyAnalyzed dbHead).map Entry.id = some "e1" ∧
    (∀ e ∈ dbHead.entries, e.status = "analyzed") ∧
    (∃ e1 ∈ dbHead.entries, e1.id = "e1" ∧
      ∀ e ∈ dbHead.entries, e.id ≠ "e1" → e.updated_at < e1.updated_at) ∧
    getHeadAnalyzedEntry dbHead ≠ specHeadMostRecentlyAnalyzed dbHead := by
  exact ⟨by rfl, by rfl, by decide,
    ⟨e1Analyzed, by decide, by decide, by decide⟩, by decide⟩

theorem foldHead_spec (f : Entry → Nat) (l : List Entry) : ∀ (b : Entry),
    ∃ e, l.foldl (fun acc x => match acc with
        | none => some x
        | some c => if f x > f c then some x else some c) (some b) = some e ∧
      (e = b ∨ e ∈ l) ∧ f b ≤ f e ∧ ∀ x ∈ l, f x ≤ f e := by
  induction l with
  | nil => exact fun b => ⟨b, rfl, .inl rfl, le_refl _, by simp⟩
  | cons a l ih =>
    intro b
    rw [List.foldl_cons]
    by_cases hab : f a > f b
    · rw [show (match some b with
          | none => some a
          | some c => if f a > f c then some a else some c) = some a from
        by simp [hab]]
      obtain ⟨e, he, hmem, hge, hall⟩ := ih a
      refine ⟨e, he, ?_, le_trans (le_of_lt hab) hge, ?_⟩
      · rcases hmem with rfl | hmem
        · exact .inr (List.mem_cons_self _ _)
        · exact .inr (List.mem_cons_of_mem _ hmem)
      · intro x hx
        rcases List.mem_cons.mp hx with rfl | hx
        · exact hge
        · exact hall x hx
    · rw [show (match some b with
          | none => some a
          | some c => if f a > f c then some a else some c) = some b from
        by simp [hab]]
      obtain ⟨e, he, hmem, hge, hall⟩ := ih b
      refine ⟨e, he, ?_, hge, ?_⟩
      · rcases hmem with rfl | hmem
        · exact .inl rfl
        · exact .inr (List.mem_cons_of_mem _ hmem)
      · intro x hx
        rcases List.mem_cons.mp hx with rfl | hx
        · exact le_trans (le_of_not_lt hab) hge
        · exact hall x hx

/-- C7 amended: `getHeadAnalyzedEntry` returns the most recently *created*
entry with status `analyzed` (`ORDER BY created_at DESC LIMIT 1`) — `null`
exactly when no analyzed entry exists, otherwise an analyzed entry whose
`created_at` is maximal among analyzed entries — and the
interview-questions handler uses exactly its id as the cache-invalidation
dependency token: a cache hit under that token short-circuits the handler,
a miss regenerates and stores under that token. -/
theorem getHeadAnalyzedEntry_spec (db : Db) :
    (getHeadAnalyzedEntry db = none ↔
      ∀ e ∈ db.entries, ¬ e.status = "analyzed") ∧
    (∀ e, getHeadAnalyzedEntry db = some e →
      e ∈ db.entries ∧ e.status = "analyzed" ∧
        ∀ e2 ∈ db.entries, e2.status = "analyzed" →
          e2.created_at ≤ e.created_at) ∧
    (∀ (c : Codec (List String)) (gen qs : List String),
      getCache c db "interview_questions"
          (jsOrNull ((getHeadAnalyzedEntry db).map (fun e => e.id))) = some qs →
        interviewQuestionsHandler c db gen = (db, qs)) ∧
    (∀ (c : Codec (List String)) (gen : List String),
      getCache c db "interview_questions"
          (jsOrNull ((getHeadAnalyzedEntry db).map (fun e => e.id))) = none →
        (interviewQuestionsHandler c db gen).2 = gen) := by
  refine ⟨?_, ?_, ?_, ?_⟩
  · unfold getHeadAnalyzedEntry
    cases hf : db.entries.filter (fun e => e.status = "analyzed") with
    | nil =>
      simp only [List.foldl_nil, true_iff]
      intro e he hst
      have : e ∈ db.entries.filter (fun e => e.status = "analyzed") :=
        List.mem_filter.mpr ⟨he, by simpa using hst⟩
      rw [hf] at this
      cases this
    | cons a rest =>
      rw [List.foldl_cons]
      obtain ⟨e, he, _, _, _⟩ := foldHead_spec (fun e => e.created_at) rest a
      rw [show (match (none : Option Entry) with
          | none => some a
          | some c => if a.created_at > c.created_at then some a
            else some c) = some a from rfl]
      rw [he]
      have ha : a ∈ db.entries.filter (fun e2 => e2.status = "analyzed") := by
        rw [hf]
        exact List.mem_cons_self _ _
      have hstat : a.status = "analyzed" := by
        simpa using (List.mem_filter.mp ha).2
      apply iff_of_false
      · simp
      · intro hall
        exact hall a (List.mem_filter.mp ha).1 hstat
  · intro e hsome
    unfold getHeadAnalyzedEntry at hsome
    cases hf : db.entries.filter (fun e => e.status = "analyzed") with
    | nil =>
      rw [hf] at hsome
      cases hsome
    | cons a rest =>
      rw [hf, List.foldl_cons] at hsome
      rw [show (match (none : Option Entry) with
          | none => some a
          | some c => if a.created_at > c.created_at then some a
            else some c) = some a from rfl] at hsome
      obtain ⟨e2, he2, hmem, hge, hall⟩ :=
        foldHead_spec (fun e => e.created_at) rest a
      rw [he2] at hsome
      have hee : e2 = e := Option.some.inj hsome
      subst hee
      have hmemf : e2 ∈ db.entries.filter (fun e => e.status = "analyzed") := by
        rw [hf]
        rcases hmem with rfl | hmem
        · exact List.mem_cons_self _ _
        · exact List.mem_cons_of_mem _ hmem
      have hms := List.mem_filter.mp hmemf
      refine ⟨hms.1, by simpa using hms.2, ?_⟩
      intro e3 he3 hst3
      have : e3 ∈ db.entries.filter (fun e => e.status = "analyzed") :=
        List.mem_filter.mpr ⟨he3, by simpa using hst3⟩
      rw [hf] at this
      rcases List.mem_cons.mp this with rfl | hin
      · exact hge
      · exact hall e3 hin
  · intro c gen qs hhit
    unfold interviewQuestionsHandler
    dsimp only
    rw [hhit]
  · intro c gen hmiss
    unfold interviewQuestionsHandler
    dsimp only
    rw [hmiss]
    cases (getHeadAnalyzedEntry db).map (fun e => e.id) <;> rfl

theorem getHeadAnalyzedEntry_spec_witness :
    getHeadAnalyzedEntry dbHead = some e2Analyzed ∧
    e2Analyzed.status = "analyzed" ∧
    (∀ e2 ∈ dbHead.entries, e2.status = "analyzed" →
      e2.created_at ≤ e2Analyzed.created_at) :=
  have h := (getHeadAnalyzedEntry_spec dbHead).2.1 e2Analyzed (by decide)
  ⟨by decide, h.2.1, h.2.2⟩

/-! ## C8 — `searchEntries` escapes `LIKE` metacharacters

`likeM` is exercised on concrete inputs first, then characterized in
general: the bound pattern `%<escaped query>%` matches exactly the strings
containing the query as a substring up to SQLite's ASCII case folding, so a
query consisting of a metacharacter matches only its literal occurrences. -/

example : likeM (searchPattern "%") "100% sure".data = true := by decide
example : likeM (searchPattern "%") "hello".data = false := by decide
example : likeM (searchPattern "_") "a_b".data = true := by decide
example : likeM (searchPattern "_") "ab".data = false := by decide
example : likeM (searchPattern "park") "The Park was nice".data = true := by decide
example : likeM (searchPattern "\\") "a\\b".data = true := by decide
example : likeM (searchPattern "\\") "ab".data = false := by decide
example : likeM (searchPattern "") "anything".data = true := by decide
example : likeM "a_c".data "abc".data = true := by decide
example : likeM "a_c".data "ac".data = false := by decide
example : likeM "a%c".data "axxxc".data = true := by decide
example : likeM "abc".data "ABC".data = true := by decide

def escChar (c : Char) : List Char :=
  if c = '\\' ∨ c = '%' ∨ c = '_' then ['\\', c] else [c]

theorem escapeLikePattern_eq (q : List Char) :
    escapeLikePattern q = q.flatMap escChar := by
  induction q with
  | nil => rfl
  | cons c q ih =>
    simp only [escapeLikePattern, replaceChar] at ih ⊢
    rw [List.flatMap_cons, List.flatMap_append, List.flatMap_append,
      List.flatMap_cons]
    rw [ih]
    congr 1
    by_cases h1 : c = '\\'
    · subst h1; rfl
    · by_cases h2 : c = '%'
      · subst h2; rfl
      · by_cases h3 : c = '_'
        · subst h3; rfl
        · simp [escChar, h1, h2, h3]

theorem likeM_percent_one (s : List Char) : likeM ['%'] s = true := by
  rw [likeM]
  rw [List.any_eq_true]
  refine ⟨s.length, List.mem_range.mpr (Nat.lt_succ_self _), ?_⟩
  rw [List.drop_length, likeM]
  rfl

theorem likeM_percent_iff (ps s : List Char) :
    likeM ('%' :: ps) s = true ↔ ∃ n, likeM ps (s.drop n) = true := by
  rw [likeM, List.any_eq_true]
  constructor
  · rintro ⟨n, _, h⟩
    exact ⟨n, h⟩
  · rintro ⟨n, h⟩
    by_cases hn : n ≤ s.length
    · exact ⟨n, List.mem_range.mpr (Nat.lt_succ_of_le hn), h⟩
    · refine ⟨s.length, List.mem_range.mpr (Nat.lt_succ_self _), ?_⟩
      rw [List.drop_length]
      rw [List.drop_eq_nil_of_le (le_of_not_le hn)] at h
      exact h

theorem likeM_lit_nil (p : Char) (ps : List Char) (h2 : p ≠ '%') :
    likeM (p :: ps) [] = false := by
  rw [likeM.eq_def]
  split <;> simp_all

theorem likeM_lit_cons (p : Char) (ps : List Char) (a : Char) (s2 : List Char)
    (h1 : p ≠ '\\') (h2 : p ≠ '%') (h3 : p ≠ '_') :
    likeM (p :: ps) (a :: s2) =
      ((foldChar a = foldChar p) && likeM ps s2) := by
  rw [likeM.eq_def]
  split <;> simp_all

theorem likeM_escChar_cons (c : Char) (rest s : List Char) :
    likeM (escChar c ++ rest) s = true ↔
      ∃ a s2, s = a :: s2 ∧ foldChar a = foldChar c ∧ likeM rest s2 = true := by
  by_cases hc : c = '\\' ∨ c = '%' ∨ c = '_'
  · rw [show escChar c = ['\\', c] from by simp [escChar, hc]]
    cases s with
    | nil =>
      rw [show (['\\', c] ++ rest : List Char) = '\\' :: c :: rest from rfl]
      rw [likeM]
      simp
    | cons a s2 =>
      rw [show (['\\', c] ++ rest : List Char) = '\\' :: c :: rest from rfl]
      rw [likeM]
      simp only [Bool.and_eq_true, decide_eq_true_eq]
      constructor
      · rintro ⟨h1, h2⟩
        exact ⟨a, s2, rfl, h1, h2⟩
      · rintro ⟨a2, s3, heq, h1, h2⟩
        injection heq with ha hs
        subst ha
        subst hs
        exact ⟨h1, h2⟩
  · push_neg at hc
    obtain ⟨h1, h2, h3⟩ := hc
    rw [show escChar c = [c] from by simp [escChar, h1, h2, h3]]
    cases s with
    | nil =>
      rw [show ([c] ++ rest : List Char) = c :: rest from rfl]
      rw [likeM_lit_nil c rest h2]
      simp
    | cons a s2 =>
      rw [show ([c] ++ rest : List Char) = c :: rest from rfl]
      rw [likeM_lit_cons c rest a s2 h1 h2 h3]
      simp only [Bool.and_eq_true, decide_eq_true_eq]
      constructor
      · rintro ⟨ha, hb⟩
        exact ⟨a, s2, rfl, ha, hb⟩
      · rintro ⟨a2, s3, heq, ha, hb⟩
        injection heq with hx hy
        subst hx
        subst hy
        exact ⟨ha, hb⟩

theorem likeM_flatMap_escChar (q : List Char) : ∀ (rest s : List Char),
    likeM (q.flatMap escChar ++ rest) s = true ↔
      ∃ s1 s2, s = s1 ++ s2 ∧ s1.map foldChar = q.map foldChar ∧
        likeM rest s2 = true := by
  induction q with
  | nil =>
    intro rest s
    rw [List.flatMap_nil, List.nil_append]
    constructor
    · intro h
      exact ⟨[], s, rfl, rfl, h⟩
    · rintro ⟨s1, s2, rfl, hmap, h⟩
      rw [List.map_nil, List.map_eq_nil_iff] at hmap
      subst hmap
      exact h
  | cons c q ih =>
    intro rest s
    rw [List.flatMap_cons, List.append_assoc, likeM_escChar_cons]
    constructor
    · rintro ⟨a, s2, rfl, hfold, h⟩
      obtain ⟨s1, s3, rfl, hmap, h2⟩ := (ih rest s2).mp h
      exact ⟨a :: s1, s3, rfl, by simp [hmap, hfold], h2⟩
    · rintro ⟨s1, s2, rfl, hmap, h2⟩
      cases s1 with
      | nil => simp at hmap
      | cons a s1 =>
        simp only [List.map_cons, List.cons.injEq] at hmap
        exact ⟨a, s1 ++ s2, rfl, hmap.1,
          (ih rest (s1 ++ s2)).mpr ⟨s1, s2, rfl, hmap.2, h2⟩⟩

theorem likeM_searchPattern (q s : String) :
    likeM (searchPattern q) s.data = true ↔
      (q.data.map foldChar) <:+: (s.data.map foldChar) := by
  unfold searchPattern
  rw [escapeLikePattern_eq, likeM_percent_iff]
  constructor
  · rintro ⟨n, h⟩
    rw [likeM_flatMap_escChar] at h
    obtain ⟨s1, s2, hsplit, hmap, _⟩ := h
    refine ⟨(s.data.take n).map foldChar, s2.map foldChar, ?_⟩
    rw [← hmap, ← List.map_append, ← List.map_append]
    conv_rhs => rw [← List.take_append_drop n s.data, hsplit]
    rw [List.append_assoc]
  · rintro ⟨t, u, heq⟩
    refine ⟨t.length, ?_⟩
    rw [likeM_flatMap_escChar]
    refine ⟨(s.data.drop t.length).take (q.data.length),
      (s.data.drop t.length).drop (q.data.length),
      (List.take_append_drop _ _).symm, ?_, likeM_percent_one _⟩
    have hs : s.data.map foldChar = t ++ ((q.data.map foldChar) ++ u) := by
      rw [← heq, List.append_assoc]
    rw [List.map_take, List.map_drop, hs, List.drop_left]
    rw [show q.data.length = (q.data.map foldChar).length from
      (List.length_map _ _).symm]
    exact List.take_left _ _

theorem foldChar_eq_percent (c : Char) : foldChar c = '%' ↔ c = '%' := by
  unfold foldChar
  split <;> simp_all

theorem foldChar_eq_underscore (c : Char) : foldChar c = '_' ↔ c = '_' := by
  unfold foldChar
  split <;> simp_all

theorem foldChar_eq_backslash (c : Char) : foldChar c = '\\' ↔ c = '\\' := by
  unfold foldChar
  split <;> simp_all

theorem singleton_infix_iff (a : Char) (l : List Char) :
    [a] <:+: l ↔ a ∈ l := by
  constructor
  · rintro ⟨t, u, rfl⟩
    simp
  · intro h
    obtain ⟨t, u, rfl⟩ := List.append_of_mem h
    exact ⟨t, u, by simp⟩

theorem mem_map_foldChar_special (p : Char)
    (hiff : ∀ c, foldChar c = p ↔ c = p) (l : List Char) :
    p ∈ l.map foldChar ↔ p ∈ l := by
  rw [List.mem_map]
  constructor
  · rintro ⟨c, hc, he⟩
    have hcp := (hiff c).mp he
    subst hcp
    exact hc
  · intro h
    exact ⟨p, h, (hiff p).mpr rfl⟩

theorem mem_searchEntries (db : Db) (q : String) (limit : Nat) (e : Entry)
    (h : e ∈ searchEntries db q limit) :
    likeColumn (searchPattern q) e.transcript = true ∨
      likeColumn (searchPattern q) e.title = true := by
  unfold searchEntries at h
  have h2 := List.take_subset _ _ h
  have h3 := ((List.mergeSort_perm _ _).mem_iff).mp h2
  have h4 := (List.mem_filter.mp h3).2
  simpa using h4

theorem mem_searchEntries_single (db : Db) (limit : Nat) (e : Entry)
    (p : Char) (hfold : foldChar p = p) (hiff : ∀ c, foldChar c = p ↔ c = p)
    (h : e ∈ searchEntries db ⟨[p]⟩ limit) :
    ∃ s, (e.transcript = some s ∨ e.title = some s) ∧ p ∈ s.data := by
  rcases mem_searchEntries db ⟨[p]⟩ limit e h with h1 | h1
  · cases ht : e.transcript with
    | none =>
      rw [ht] at h1
      exact absurd h1 (by simp [likeColumn])
    | some s =>
      rw [ht] at h1
      simp only [likeColumn] at h1
      have hinf := (likeM_searchPattern ⟨[p]⟩ s).mp h1
      rw [show (String.mk [p]).data.map foldChar = [p] from by simp [hfold]]
        at hinf
      have hm := (singleton_infix_iff p _).mp hinf
      exact ⟨s, .inl rfl, (mem_map_foldChar_special p hiff s.data).mp hm⟩
  · cases ht : e.title with
    | none =>
      rw [ht] at h1
      exact absurd h1 (by simp [likeColumn])
    | some s =>
      rw [ht] at h1
      simp only [likeColumn] at h1
      have hinf := (likeM_searchPattern ⟨[p]⟩ s).mp h1
      rw [show (String.mk [p]).data.map foldChar = [p] from by simp [hfold]]
        at hinf
      have hm := (singleton_infix_iff p _).mp hinf
      exact ⟨s, .inr rfl, (mem_map_foldChar_special p hiff s.data).mp hm⟩

/-- C8: `searchEntries` performs a substring match (up to SQLite's ASCII
case folding) in which `LIKE` metacharacters of the query are escaped: for
every query and string, the bound pattern matches iff the case-folded query
is an infix of the case-folded string; consequently searching for the
literal `%` returns only entries whose transcript or title contains a
literal `%` character, likewise for `_`, and the escaping also covers the
escape character `\\` itself. -/
theorem searchEntries_escapes_metacharacters :
    (∀ (q s : String), likeM (searchPattern q) s.data = true ↔
        (q.data.map foldChar) <:+: (s.data.map foldChar)) ∧
    (∀ (db : Db) (limit : Nat) (e : Entry), e ∈ searchEntries db "%" limit →
      ∃ s, (e.transcript = some s ∨ e.title = some s) ∧ '%' ∈ s.data) ∧
    (∀ (db : Db) (limit : Nat) (e : Entry), e ∈ searchEntries db "_" limit →
      ∃ s, (e.transcript = some s ∨ e.title = some s) ∧ '_' ∈ s.data) ∧
    (∀ (db : Db) (limit : Nat) (e : Entry), e ∈ searchEntries db "\\" limit →
      ∃ s, (e.transcript = some s ∨ e.title = some s) ∧ '\\' ∈ s.data) :=
  ⟨likeM_searchPattern,
    fun db limit e h => mem_searchEntries_single db limit e '%' rfl
      foldChar_eq_percent h,
    fun db limit e h => mem_searchEntries_single db limit e '_' rfl
      foldChar_eq_underscore h,
    fun db limit e h => mem_searchEntries_single db limit e '\\' rfl
      foldChar_eq_backslash h⟩

theorem searchEntries_escapes_metacharacters_witness :
    likeM (searchPattern "%") "50% off".data = true ∧
    likeM (searchPattern "%") "hello".data = false ∧
    likeM (searchPattern "\\") "a\\b".data = true :=
  ⟨(searchEntries_escapes_metacharacters.1 "%" "50% off").mpr (by decide),
    by decide,
    (searchEntries_escapes_metacharacters.1 "\\" "a\\b").mpr (by decide)⟩

end Muninn
